import Mathlib

set_option maxHeartbeats 1000000
set_option maxRecDepth 100000

/-!
Verification development for the InkVerify core: a toroidal grid container
(`src/core/src/grid.rs`), deterministic seed derivation and pseudo-random fill,
the cellular-automaton evolution rule (`src/core/src/engine.rs`), and the final
digest computation (`src/cli/src/main.rs`, `src/core/src/lib.rs`).

Bytes are modelled as natural numbers below 256 and 32-bit words as natural
numbers below 2^32, with wrapping made explicit by reduction modulo 2^32.
Strings are modelled by their UTF-8 byte sequences (`List Nat`).
Rust panics are modelled by `Option` (`none` = panic).
-/

/-- Reduction modulo `2^32`, the wrapping of 32-bit unsigned arithmetic. -/
def w32 (x : Nat) : Nat := x % 4294967296

/-- Right rotation of a 32-bit word (`x.rotate_right(n)` for `x : u32`). -/
def rotr32 (n x : Nat) : Nat := (x >>> n) ||| ((x <<< (32 - n)) % 4294967296)

/-- The big sigma-0 function of SHA-256. -/
def bsig0 (x : Nat) : Nat := rotr32 2 x ^^^ rotr32 13 x ^^^ rotr32 22 x

/-- The big sigma-1 function of SHA-256. -/
def bsig1 (x : Nat) : Nat := rotr32 6 x ^^^ rotr32 11 x ^^^ rotr32 25 x

/-- The small sigma-0 function of SHA-256. -/
def ssig0 (x : Nat) : Nat := rotr32 7 x ^^^ rotr32 18 x ^^^ (x >>> 3)

/-- The small sigma-1 function of SHA-256. -/
def ssig1 (x : Nat) : Nat := rotr32 17 x ^^^ rotr32 19 x ^^^ (x >>> 10)

/-- The choice function of SHA-256; complement is xor with the all-ones 32-bit word. -/
def chf (x y z : Nat) : Nat := (x &&& y) ^^^ ((x ^^^ 4294967295) &&& z)

/-- The majority function of SHA-256. -/
def majf (x y z : Nat) : Nat := (x &&& y) ^^^ (x &&& z) ^^^ (y &&& z)

/-- The 64 round constants of SHA-256. -/
def sha256K : List Nat :=
  [1116352408, 1899447441, 3049323471, 3921009573,
   961987163, 1508970993, 2453635748, 2870763221,
   3624381080, 310598401, 607225278, 1426881987,
   1925078388, 2162078206, 2614888103, 3248222580,
   3835390401, 4022224774, 264347078, 604807628,
   770255983, 1249150122, 1555081692, 1996064986,
   2554220882, 2821834349, 2952996808, 3210313671,
   3336571891, 3584528711, 113926993, 338241895,
   666307205, 773529912, 1294757372, 1396182291,
   1695183700, 1986661051, 2177026350, 2456956037,
   2730485921, 2820302411, 3259730800, 3345764771,
   3516065817, 3600352804, 4094571909, 275423344,
   430227734, 506948616, 659060556, 883997877,
   958139571, 1322822218, 1537002063, 1747873779,
   1955562222, 2024104815, 2227730452, 2361852424,
   2428436474, 2756734187, 3204031479, 3329325298]

/-- The eight 32-bit working variables of the SHA-256 compression function. -/
structure Sha256State where
  a : Nat
  b : Nat
  c : Nat
  d : Nat
  e : Nat
  f : Nat
  g : Nat
  hh : Nat
deriving DecidableEq

/-- The SHA-256 initial hash value. -/
def sha256Init : Sha256State :=
  ⟨1779033703, 3144134277, 1013904242, 2773480762,
   1359893119, 2600822924, 528734635, 1541459225⟩

/-- Groups a byte list into big-endian 32-bit words (4 bytes per word). -/
def bytesToWordsBE : List Nat → List Nat
  | b0 :: b1 :: b2 :: b3 :: rest => (b0 * 16777216 + b1 * 65536 + b2 * 256 + b3) :: bytesToWordsBE rest
  | _ => []

/-- Extends the 16-word message block to the full SHA-256 message schedule, one word per step. -/
def extendSchedule : List Nat → Nat → List Nat
  | w, 0 => w
  | w, n + 1 =>
    let w' := extendSchedule w n
    let t := w'.length
    w' ++ [w32 (ssig1 (w'.getD (t - 2) 0) + w'.getD (t - 7) 0 +
                ssig0 (w'.getD (t - 15) 0) + w'.getD (t - 16) 0)]

/-- One round of the SHA-256 compression function. -/
def sha256Round (st : Sha256State) (kt wt : Nat) : Sha256State :=
  let t1 := w32 (st.hh + bsig1 st.e + chf st.e st.f st.g + kt + wt)
  let t2 := w32 (bsig0 st.a + majf st.a st.b st.c)
  ⟨w32 (t1 + t2), st.a, st.b, st.c, w32 (st.d + t1), st.e, st.f, st.g⟩

/-- The SHA-256 compression function on one 64-byte block. -/
def sha256Compress (st : Sha256State) (block : List Nat) : Sha256State :=
  let ws := extendSchedule (bytesToWordsBE block) 48
  let st' := (List.range 64).foldl (fun s t => sha256Round s (sha256K.getD t 0) (ws.getD t 0)) st
  ⟨w32 (st.a + st'.a), w32 (st.b + st'.b), w32 (st.c + st'.c), w32 (st.d + st'.d),
   w32 (st.e + st'.e), w32 (st.f + st'.f), w32 (st.g + st'.g), w32 (st.hh + st'.hh)⟩

/-- Folds the compression function over consecutive 64-byte blocks; the first
argument is the number of blocks (structural recursion so that the kernel can
evaluate digests; the padded input always has length `64 * blocks`). -/
def sha256Blocks : Nat → Sha256State → List Nat → Sha256State
  | 0, st, _ => st
  | n + 1, st, l => sha256Blocks n (sha256Compress st (l.take 64)) (l.drop 64)

/-- Big-endian 8-byte encoding of a 64-bit length value. -/
def u64BytesBE (n : Nat) : List Nat :=
  [n / 72057594037927936 % 256, n / 281474976710656 % 256, n / 1099511627776 % 256,
   n / 4294967296 % 256, n / 16777216 % 256, n / 65536 % 256, n / 256 % 256, n % 256]

/-- SHA-256 padding: append `0x80`, zeros to 56 mod 64, then the bit length as 8 big-endian bytes. -/
def sha256Pad (msg : List Nat) : List Nat :=
  msg ++ 128 :: List.replicate ((119 - msg.length % 64) % 64) 0 ++
    u64BytesBE (msg.length * 8 % 18446744073709551616)

/-- Big-endian 4-byte encoding of a 32-bit word. -/
def wordBytesBE (x : Nat) : List Nat :=
  [x / 16777216 % 256, x / 65536 % 256, x / 256 % 256, x % 256]

/-- SHA-256 of a byte sequence, as the 32-byte digest.
This single definition is shared by seed derivation (`generate_grid_from_seed`)
and the final digest (`calculate_grid_hash`), mirroring that both use the
`sha2::Sha256` hasher. -/
def sha256 (msg : List Nat) : List Nat :=
  let padded := sha256Pad msg
  let st := sha256Blocks (padded.length / 64) sha256Init padded
  wordBytesBE st.a ++ wordBytesBE st.b ++ wordBytesBE st.c ++ wordBytesBE st.d ++
  wordBytesBE st.e ++ wordBytesBE st.f ++ wordBytesBE st.g ++ wordBytesBE st.hh

/-! ## The toroidal grid (`src/core/src/grid.rs`), specialised to `Grid<u8>` -/

/-- The grid container: flat row-major cell vector with explicit dimensions
(`struct Grid<T>` of `grid.rs`, at the `u8` instantiation used by the core). -/
structure Grid where
  width : Nat
  height : Nat
  cells : List Nat
deriving DecidableEq

/-- `Grid::new`: all cells at the default value 0. -/
def Grid.new (width height : Nat) : Grid :=
  ⟨width, height, List.replicate (width * height) 0⟩

/-- `Grid::from_raw`: panics (modelled as `none`) unless `cells.len() == width * height`. -/
def Grid.from_raw (width height : Nat) (cells : List Nat) : Option Grid :=
  if cells.length = width * height then some ⟨width, height, cells⟩ else none

/-- `Grid::get_index`: toroidal wrapping by `rem_euclid`, which is `Int.emod` (`%` on `Int`),
then row-major flattening. -/
def Grid.get_index (g : Grid) (x y : Int) : Nat :=
  (y % (g.height : Int)).toNat * g.width + (x % (g.width : Int)).toNat

/-- `Grid::get`: reads the cell at the wrapped index. The Rust code indexes the
backing vector, which for a well-formed grid with positive dimensions is always
in bounds (proved below); out-of-bounds reads are modelled by the default 0. -/
def Grid.get (g : Grid) (x y : Int) : Nat := g.cells.getD (g.get_index x y) 0

/-- `Grid::set`: writes the flat index `y * width + x` with no wrapping and no range
check of its own (the Rust vector write `self.cells[idx] = value`). `List.set` is a
no-op out of bounds; `Grid.setChecked` below models the panic explicitly. -/
def Grid.set (g : Grid) (x y : Nat) (value : Nat) : Grid :=
  { g with cells := g.cells.set (y * g.width + x) value }

/-- `Grid::set` with the panic of the vector write made explicit: Rust's
`self.cells[idx] = value` panics exactly when `idx >= self.cells.len()`. -/
def Grid.setChecked (g : Grid) (x y : Nat) (value : Nat) : Option Grid :=
  if y * g.width + x < g.cells.length then some (g.set x y value) else none

/-- `Grid::as_raw`: the flat row-major cell buffer. -/
def Grid.as_raw (g : Grid) : List Nat := g.cells

/-- The structural invariant maintained by both Rust constructors:
the cell vector has exactly `width * height` entries. -/
def Grid.WF (g : Grid) : Prop := g.cells.length = g.width * g.height

instance (g : Grid) : Decidable g.WF := by unfold Grid.WF; infer_instance

/-! ## The xorshift bit generator (`src/core/src/engine.rs`) -/

namespace Xorshift32

/-- `Xorshift32::new`: a zero seed is replaced by the constant `0xDEADBEEF`. -/
def new (seed : Nat) : Nat := if seed = 0 then 3735928559 else seed

/-- The state transform of `next_u8`: `x ^= x << 13; x ^= x >> 17; x ^= x << 5`
in wrapping 32-bit unsigned arithmetic. -/
def nextState (s : Nat) : Nat :=
  let x1 := s ^^^ ((s <<< 13) % 4294967296)
  let x2 := x1 ^^^ (x1 >>> 17)
  x2 ^^^ ((x2 <<< 5) % 4294967296)

/-- `Xorshift32::next_u8`: returns the new state paired with the returned byte
`x & 0xFF` (state mutation modelled by returning the new state). -/
def next_u8 (s : Nat) : Nat × Nat :=
  let x := nextState s
  (x, x &&& 255)

/-- `Xorshift32::next_bool`: new state paired with 1 if the drawn byte exceeds 128, else 0. -/
def next_bool (s : Nat) : Nat × Nat :=
  let r := next_u8 s
  (r.1, if r.2 > 128 then 1 else 0)

/-- The first `n` bytes output by `next_u8` from a given state. -/
def byteStream (s : Nat) : Nat → List Nat
  | 0 => []
  | n + 1 => (next_u8 s).2 :: byteStream (next_u8 s).1 n

end Xorshift32

/-- The `n`-th value (1-indexed) of the cell-value stream of a generator
initialized with `seed`: the byte drawn on the `n`-th call is the low 8 bits of
the `n`-fold state transform, and the cell value is 1 exactly when it exceeds 128. -/
def streamNth (seed : Nat) (n : Nat) : Nat :=
  if Xorshift32.nextState^[n] (Xorshift32.new seed) % 256 > 128 then 1 else 0

/-- The cell-fill loop of `generate_grid_from_seed`: `n` successive `next_bool`
draws from state `s`, threading the mutated state. -/
def fillCells (s : Nat) : Nat → List Nat
  | 0 => []
  | n + 1 => (Xorshift32.next_bool s).2 :: fillCells (Xorshift32.next_bool s).1 n

/-- `u32::from_be_bytes` on the first four digest bytes. -/
def u32_from_be (l : List Nat) : Nat :=
  l.getD 0 0 * 16777216 + l.getD 1 0 * 65536 + l.getD 2 0 * 256 + l.getD 3 0

/-- `generate_grid_from_seed`: SHA-256 over username bytes then password bytes,
first 4 digest bytes as a big-endian `u32` seed, then a row-major fill with one
`next_bool` per cell, finished by `Grid::from_raw`. -/
def generate_grid_from_seed (username password : List Nat) (width height : Nat) : Option Grid :=
  let result := sha256 (username ++ password)
  let seed_u32 := u32_from_be (result.take 4)
  Grid.from_raw width height (fillCells (Xorshift32.new seed_u32) (width * height))

/-! ## Evolution (`tick`, `count_neighbors`, `run_simulation` of `engine.rs`) -/

/-- The match of `tick` on `(state, neighbors)`: survival `(1,2)|(1,3)`, birth `(0,3)`,
death otherwise. -/
def ruleNext (state neighbors : Nat) : Nat :=
  match state, neighbors with
  | 1, 2 => 1
  | 1, 3 => 1
  | 0, 3 => 1
  | _, _ => 0

/-- `count_neighbors`: folds over the 8 Moore-neighborhood offsets, counting
cells read through the wrapping `get` that equal 1. -/
def count_neighbors (g : Grid) (x y : Int) : Nat :=
  let offsets : List (Int × Int) :=
    [(-1, -1), (0, -1), (1, -1), (-1, 0), (1, 0), (-1, 1), (0, 1), (1, 1)]
  offsets.foldl (fun count d => if g.get (x + d.1) (y + d.2) = 1 then count + 1 else count) 0

/-- `tick`: builds a fresh `Grid::new width height` and writes every cell in
row-major loop order with the rule applied to the prior state (the nested
`for y { for x { next.set(...) } }` loops as folds). -/
def tick (current : Grid) : Grid :=
  let width := current.width
  let height := current.height
  (List.range height).foldl
    (fun next y =>
      (List.range width).foldl
        (fun next x =>
          next.set x y (ruleNext (current.get x y) (count_neighbors current x y)))
        next)
    (Grid.new width height)

/-- `run_simulation`: the `for _ in 0..steps { grid = tick(&grid) }` loop as a fold. -/
def run_simulation (grid : Grid) (steps : Nat) : Grid :=
  (List.range steps).foldl (fun g _ => tick g) grid

/-! ## Digest rendering (`calculate_grid_hash` of `main.rs`, `prove_work` of `lib.rs`) -/

/-- One lowercase hexadecimal digit. -/
def hexDigitChar (n : Nat) : Char :=
  if n < 10 then Char.ofNat (48 + n) else Char.ofNat (87 + n)

/-- `hex::encode`: two lowercase hexadecimal digits per byte, in order. -/
def hexEncode (bytes : List Nat) : List Char :=
  bytes.foldr (fun b acc => hexDigitChar (b / 16) :: hexDigitChar (b % 16) :: acc) []

/-- `calculate_grid_hash`: SHA-256 over the grid's raw cell buffer, rendered as
lowercase hexadecimal (the character sequence of the returned string). -/
def calculate_grid_hash (g : Grid) : List Char := hexEncode (sha256 g.as_raw)

/-! ## General lemmas -/

theorem land_255_eq_mod (x : Nat) : x &&& 255 = x % 256 := by
  have h := Nat.and_pow_two_sub_one_eq_mod x 8
  norm_num at h
  exact h

theorem xor_mod_two_pow (a b n : Nat) : (a ^^^ b) % 2 ^ n = a % 2 ^ n ^^^ b % 2 ^ n := by
  apply Nat.eq_of_testBit_eq
  intro i
  simp only [Nat.testBit_mod_two_pow, Nat.testBit_xor]
  by_cases h : i < n <;> simp [h]

theorem shiftRight_le_self (x k : Nat) : x >>> k ≤ x := by
  rw [Nat.shiftRight_eq_div_pow]
  exact Nat.div_le_self _ _

theorem xor_lt_32 {a b : Nat} (ha : a < 4294967296) (hb : b < 4294967296) :
    a ^^^ b < 4294967296 := by
  have h32 : (4294967296 : Nat) = 2 ^ 32 := by norm_num
  rw [h32] at ha hb ⊢
  exact Nat.xor_lt_two_pow ha hb

theorem xor_mod_32 (a b : Nat) :
    (a ^^^ b) % 4294967296 = a % 4294967296 ^^^ b % 4294967296 := by
  have h := xor_mod_two_pow a b 32
  norm_num at h
  exact h

/-! ## C4: the xorshift byte transform and the cell-value threshold -/

theorem nextState_lt (s : Nat) (hs : s < 4294967296) :
    Xorshift32.nextState s < 4294967296 := by
  unfold Xorshift32.nextState
  have h1 : s ^^^ s <<< 13 % 4294967296 < 4294967296 :=
    xor_lt_32 hs (Nat.mod_lt _ (by norm_num))
  have h2 : (s ^^^ s <<< 13 % 4294967296) ^^^ (s ^^^ s <<< 13 % 4294967296) >>> 17
      < 4294967296 :=
    xor_lt_32 h1 (Nat.lt_of_le_of_lt (shiftRight_le_self _ 17) h1)
  exact xor_lt_32 h2 (Nat.mod_lt _ (by norm_num))

/-- C4: one call of `next_u8` replaces the state by the three-step xorshift
transform `x ^= x<<13; x ^= x>>17; x ^= x<<5` in 32-bit wrapping arithmetic
(stated with the wrap applied after every step) and returns the low 8 bits of
the new state; `next_bool` returns 1 exactly when that byte is strictly greater
than 128 — bytes 0..128 give 0 and bytes 129..255 give 1. -/
theorem C4_next_byte_spec (s : Nat) (hs : s < 4294967296) :
    (Xorshift32.next_u8 s).1 =
      ((((s ^^^ s <<< 13) % 4294967296) ^^^ ((s ^^^ s <<< 13) % 4294967296) >>> 17)
        % 4294967296 ^^^
       ((((s ^^^ s <<< 13) % 4294967296) ^^^ ((s ^^^ s <<< 13) % 4294967296) >>> 17)
        % 4294967296) <<< 5) % 4294967296 ∧
    (Xorshift32.next_u8 s).1 < 4294967296 ∧
    (Xorshift32.next_u8 s).2 = (Xorshift32.next_u8 s).1 % 256 ∧
    (Xorshift32.next_u8 s).2 < 256 ∧
    (Xorshift32.next_bool s).1 = (Xorshift32.next_u8 s).1 ∧
    ((Xorshift32.next_u8 s).2 ≤ 128 → (Xorshift32.next_bool s).2 = 0) ∧
    (129 ≤ (Xorshift32.next_u8 s).2 → (Xorshift32.next_bool s).2 = 1) := by
  have hx1 : (s ^^^ s <<< 13) % 4294967296 = s ^^^ (s <<< 13) % 4294967296 := by
    rw [xor_mod_32, Nat.mod_eq_of_lt hs]
  have hlt1 : s ^^^ (s <<< 13) % 4294967296 < 4294967296 :=
    xor_lt_32 hs (Nat.mod_lt _ (by norm_num))
  have hlt2 : (s ^^^ (s <<< 13) % 4294967296) ^^^ (s ^^^ (s <<< 13) % 4294967296) >>> 17
      < 4294967296 :=
    xor_lt_32 hlt1 (Nat.lt_of_le_of_lt (shiftRight_le_self _ 17) hlt1)
  have hx2 : ((s ^^^ (s <<< 13) % 4294967296) ^^^
      (s ^^^ (s <<< 13) % 4294967296) >>> 17) % 4294967296 =
      (s ^^^ (s <<< 13) % 4294967296) ^^^ (s ^^^ (s <<< 13) % 4294967296) >>> 17 :=
    Nat.mod_eq_of_lt hlt2
  refine ⟨?_, nextState_lt s hs, ?_, ?_, rfl, ?_, ?_⟩
  · show Xorshift32.nextState s = _
    simp only [Xorshift32.nextState]
    rw [hx1, hx2, xor_mod_32, Nat.mod_eq_of_lt hlt2]
  · show Xorshift32.nextState s &&& 255 = Xorshift32.nextState s % 256
    exact land_255_eq_mod _
  · show Xorshift32.nextState s &&& 255 < 256
    rw [land_255_eq_mod]
    exact Nat.mod_lt _ (by norm_num)
  · intro hle
    show (if (Xorshift32.next_u8 s).2 > 128 then 1 else 0) = 0
    rw [if_neg (by omega)]
  · intro hge
    show (if (Xorshift32.next_u8 s).2 > 128 then 1 else 0) = 1
    rw [if_pos (by omega)]

/-- Witness for C4 at the concrete state 1, whose drawn byte 33 is at most 128. -/
theorem C4_witness :
    (1 : Nat) < 4294967296 ∧ (Xorshift32.next_bool 1).2 = 0 := by
  refine ⟨by decide, ?_⟩
  exact (C4_next_byte_spec 1 (by decide)).2.2.2.2.2.1 (by decide)

/-! ## C5: zero-seed remapping -/

/-- C5: initializing with seed 0 sets the state to `0xDEADBEEF` (3735928559),
any nonzero seed is kept unchanged, and for every `n` the first `n` output bytes
from seed 0 coincide with those from seed `0xDEADBEEF`. -/
theorem C5_zero_seed_spec :
    Xorshift32.new 0 = 3735928559 ∧
    (∀ s : Nat, s ≠ 0 → Xorshift32.new s = s) ∧
    ∀ n : Nat, Xorshift32.byteStream (Xorshift32.new 0) n =
      Xorshift32.byteStream (Xorshift32.new 3735928559) n := by
  refine ⟨rfl, ?_, ?_⟩
  · intro s hs
    simp [Xorshift32.new, hs]
  · intro n
    have h : Xorshift32.new 0 = Xorshift32.new 3735928559 := by decide
    rw [h]

/-- Witness for C5 at seed 7 and stream length 3. -/
theorem C5_witness :
    Xorshift32.new 0 = 3735928559 ∧ Xorshift32.new 7 = 7 ∧
    Xorshift32.byteStream (Xorshift32.new 0) 3 =
      Xorshift32.byteStream (Xorshift32.new 3735928559) 3 :=
  ⟨C5_zero_seed_spec.1, C5_zero_seed_spec.2.1 7 (by decide), C5_zero_seed_spec.2.2 3⟩

/-! ## C6: the simulation driver is iterated stepping -/

theorem run_simulation_eq_iterate (g : Grid) (steps : Nat) :
    run_simulation g steps = tick^[steps] g := by
  induction steps with
  | zero => rfl
  | succ n ih =>
    unfold run_simulation at *
    rw [List.range_succ, List.foldl_append, ih, List.foldl_cons, List.foldl_nil,
      Function.iterate_succ_apply']

/-- C6: `run_simulation` applies `tick` exactly `steps` times, feeding each
output as the next input, and zero steps returns the initial grid unchanged. -/
theorem C6_simulate_spec (g : Grid) (steps : Nat) :
    run_simulation g steps = tick^[steps] g ∧ run_simulation g 0 = g :=
  ⟨run_simulation_eq_iterate g steps, rfl⟩

/-! ## C8: raw construction and the raw view -/

/-- C8: `from_raw` fails exactly when the cell count disagrees with
`width * height`, on success it stores exactly the given cells (no partial
construction), and for any well-formed grid the raw view has length
`width * height` and reconstructing from it yields the original grid. -/
theorem C8_from_raw_spec (w h : Nat) (cells : List Nat) (g : Grid) (hwf : g.WF) :
    (Grid.from_raw w h cells = none ↔ cells.length ≠ w * h) ∧
    (∀ g', Grid.from_raw w h cells = some g' →
        g'.width = w ∧ g'.height = h ∧ g'.cells = cells) ∧
    g.as_raw.length = g.width * g.height ∧
    Grid.from_raw g.width g.height g.as_raw = some g := by
  refine ⟨?_, ?_, hwf, ?_⟩
  · unfold Grid.from_raw
    split <;> simp_all
  · intro g' hg'
    unfold Grid.from_raw at hg'
    split at hg'
    · cases hg'
      exact ⟨rfl, rfl, rfl⟩
    · cases hg'
  · have hwf' : g.cells.length = g.width * g.height := hwf
    unfold Grid.from_raw Grid.as_raw
    rw [if_pos hwf']

/-- Witness for C8 at a concrete 2-by-3 grid. -/
theorem C8_witness :
    (Grid.from_raw 2 3 [9] = none ↔ ([9] : List Nat).length ≠ 2 * 3) ∧
    (∀ g', Grid.from_raw 2 3 [9] = some g' →
        g'.width = 2 ∧ g'.height = 3 ∧ g'.cells = [9]) ∧
    (Grid.as_raw ⟨2, 3, [0, 1, 0, 1, 1, 0]⟩).length = (2 : Nat) * 3 ∧
    Grid.from_raw 2 3 (Grid.as_raw ⟨2, 3, [0, 1, 0, 1, 1, 0]⟩) =
      some ⟨2, 3, [0, 1, 0, 1, 1, 0]⟩ := by
  have h := C8_from_raw_spec 2 3 [9] ⟨2, 3, [0, 1, 0, 1, 1, 0]⟩ (by decide)
  exact h

/-! ## C3: toroidal wrapping of `get` -/

theorem get_index_lt (g : Grid) (hW : 0 < g.width) (hH : 0 < g.height) (hwf : g.WF)
    (x y : Int) : g.get_index x y < g.cells.length := by
  unfold Grid.get_index
  have hHZ : ((g.height : Int)) ≠ 0 := by exact_mod_cast hH.ne'
  have hWZ : ((g.width : Int)) ≠ 0 := by exact_mod_cast hW.ne'
  have hy0 : 0 ≤ y % (g.height : Int) := Int.emod_nonneg y hHZ
  have hx0 : 0 ≤ x % (g.width : Int) := Int.emod_nonneg x hWZ
  have hyt : (y % (g.height : Int)).toNat < g.height :=
    (Int.toNat_lt hy0).mpr (Int.emod_lt_of_pos y (by exact_mod_cast hH))
  have hxt : (x % (g.width : Int)).toNat < g.width :=
    (Int.toNat_lt hx0).mpr (Int.emod_lt_of_pos x (by exact_mod_cast hW))
  have hwf' : g.cells.length = g.width * g.height := hwf
  calc (y % (g.height : Int)).toNat * g.width + (x % (g.width : Int)).toNat
      < (y % (g.height : Int)).toNat * g.width + g.width := by omega
    _ = ((y % (g.height : Int)).toNat + 1) * g.width := by rw [Nat.succ_mul]
    _ ≤ g.height * g.width := Nat.mul_le_mul_right _ (by omega)
    _ = g.width * g.height := Nat.mul_comm _ _
    _ = g.cells.length := hwf'.symm

/-- C3: for positive dimensions and arbitrary integer coordinates, `get` reads the
cell at row `((y % H) + H) % H` and column `((x % W) + W) % W` in Euclidean
arithmetic, the computed flat index is always in bounds, and the three wraparound
identities of the spec hold. -/
theorem C3_get_wrapping (g : Grid) (hW : 0 < g.width) (hH : 0 < g.height) (hwf : g.WF) :
    (∀ x y : Int,
        g.get x y = g.cells.getD
          (((y % (g.height : Int) + g.height) % g.height).toNat * g.width +
           ((x % (g.width : Int) + g.width) % g.width).toNat) 0 ∧
        g.get_index x y < g.cells.length) ∧
    g.get (-1) 0 = g.get ((g.width : Int) - 1) 0 ∧
    g.get (g.width : Int) 0 = g.get 0 0 ∧
    g.get 0 (-1) = g.get 0 ((g.height : Int) - 1) := by
  have hadd : ∀ (a b : Int), (a + b) % b = a % b := by
    intro a b
    have h := Int.add_mul_emod_self_left a b 1
    rw [Int.mul_one] at h
    exact h
  have hmod : ∀ (a b : Int), (a % b + b) % b = a % b := by
    intro a b
    rw [hadd, Int.emod_emod_of_dvd a dvd_rfl]
  refine ⟨?_, ?_, ?_, ?_⟩
  · intro x y
    refine ⟨?_, get_index_lt g hW hH hwf x y⟩
    unfold Grid.get Grid.get_index
    rw [hmod, hmod]
  · have hx : ((g.width : Int) - 1) % g.width = (-1) % g.width := by
      rw [show (g.width : Int) - 1 = -1 + g.width from by ring, hadd]
    unfold Grid.get Grid.get_index
    rw [hx]
  · have hx : ((g.width : Int)) % g.width = (0 : Int) % g.width := by
      rw [Int.emod_self, Int.zero_emod]
    unfold Grid.get Grid.get_index
    rw [hx]
  · have hy : ((g.height : Int) - 1) % g.height = (-1) % g.height := by
      rw [show (g.height : Int) - 1 = -1 + g.height from by ring, hadd]
    unfold Grid.get Grid.get_index
    rw [hy]

/-- Witness for C3 at a concrete 2-by-3 grid and coordinates (-5, 7). -/
theorem C3_witness :
    (0 : Nat) < 2 ∧ (0 : Nat) < 3 ∧ Grid.WF ⟨2, 3, [1, 2, 3, 4, 5, 6]⟩ ∧
    ((Grid.get ⟨2, 3, [1, 2, 3, 4, 5, 6]⟩ (-5) 7 =
        (List.getD [1, 2, 3, 4, 5, 6]
          ((((7 : Int) % (3 : Nat) + (3 : Nat)) % (3 : Nat)).toNat * 2 +
           (((-5 : Int) % (2 : Nat) + (2 : Nat)) % (2 : Nat)).toNat) 0)) ∧
      Grid.get_index ⟨2, 3, [1, 2, 3, 4, 5, 6]⟩ (-5) 7 <
        (List.length [1, 2, 3, 4, 5, 6])) := by
  refine ⟨by decide, by decide, by decide, ?_⟩
  exact (C3_get_wrapping ⟨2, 3, [1, 2, 3, 4, 5, 6]⟩ (by decide) (by decide) (by decide)).1 (-5) 7

/-! ## C7: the digest is SHA-256 of the raw cells, in lowercase hex -/

theorem sha256_length (msg : List Nat) : (sha256 msg).length = 32 := by
  simp [sha256, wordBytesBE]

theorem sha256_lt (msg : List Nat) : ∀ b ∈ sha256 msg, b < 256 := by
  intro b hb
  simp [sha256, wordBytesBE] at hb
  omega

theorem hexEncode_cons (b : Nat) (t : List Nat) :
    hexEncode (b :: t) = hexDigitChar (b / 16) :: hexDigitChar (b % 16) :: hexEncode t := rfl

theorem hexEncode_length (l : List Nat) : (hexEncode l).length = 2 * l.length := by
  induction l with
  | nil => rfl
  | cons b t ih =>
    rw [hexEncode_cons]
    simp only [List.length_cons, ih]
    omega

theorem mem_hexEncode (l : List Nat) (c : Char) (hc : c ∈ hexEncode l) :
    ∃ b ∈ l, c = hexDigitChar (b / 16) ∨ c = hexDigitChar (b % 16) := by
  induction l with
  | nil => cases hc
  | cons b t ih =>
    rw [hexEncode_cons, List.mem_cons, List.mem_cons] at hc
    rcases hc with h | h | h
    · exact ⟨b, List.mem_cons_self b t, Or.inl h⟩
    · exact ⟨b, List.mem_cons_self b t, Or.inr h⟩
    · obtain ⟨b', hb', hcb'⟩ := ih h
      exact ⟨b', List.mem_cons_of_mem b hb', hcb'⟩

theorem hexDigitChar_code (n : Nat) (hn : n < 16) :
    (48 ≤ (hexDigitChar n).toNat ∧ (hexDigitChar n).toNat ≤ 57) ∨
    (97 ≤ (hexDigitChar n).toNat ∧ (hexDigitChar n).toNat ≤ 102) := by
  interval_cases n <;> decide

/-- C7: the digest operation computes SHA-256 — the same `sha256` used by seed
derivation — over the grid's raw byte view, and the rendered digest is exactly
64 characters, each a lowercase hexadecimal digit (a character in the code
range of the decimal digits or of the lowercase letters a to f). -/
theorem C7_digest_spec (g : Grid) :
    calculate_grid_hash g = hexEncode (sha256 g.as_raw) ∧
    (calculate_grid_hash g).length = 64 ∧
    ∀ c ∈ calculate_grid_hash g,
      (48 ≤ c.toNat ∧ c.toNat ≤ 57) ∨ (97 ≤ c.toNat ∧ c.toNat ≤ 102) := by
  refine ⟨rfl, ?_, ?_⟩
  · show (hexEncode (sha256 g.as_raw)).length = 64
    rw [hexEncode_length, sha256_length]
  · intro c hc
    obtain ⟨b, hb, hcb⟩ := mem_hexEncode _ c hc
    have hblt := sha256_lt _ b hb
    rcases hcb with h | h <;> subst h <;> exact hexDigitChar_code _ (by omega)

/-- Witness for C7: the empty grid's digest (SHA-256 of the empty byte string)
contains the character `e` and it is a lowercase hex digit. -/
theorem C7_witness :
    (calculate_grid_hash ⟨0, 0, []⟩).length = 64 ∧
    ((48 ≤ Char.toNat 'e' ∧ Char.toNat 'e' ≤ 57) ∨
     (97 ≤ Char.toNat 'e' ∧ Char.toNat 'e' ≤ 102)) :=
  ⟨(C7_digest_spec ⟨0, 0, []⟩).2.1, (C7_digest_spec ⟨0, 0, []⟩).2.2 'e' (by decide)⟩

/-! ## C1: pointwise characterization of `tick` -/

theorem Grid.set_width (g : Grid) (x y v : Nat) : (g.set x y v).width = g.width := rfl

theorem Grid.set_height (g : Grid) (x y v : Nat) : (g.set x y v).height = g.height := rfl

theorem foldl_set_row (f : Nat → Nat) (y : Nat) (xs : List Nat) :
    ∀ g : Grid,
      xs.foldl (fun acc x => acc.set x y (f x)) g =
        ⟨g.width, g.height, xs.foldl (fun l x => l.set (y * g.width + x) (f x)) g.cells⟩ := by
  induction xs with
  | nil => intro g; rfl
  | cons x xs ih =>
    intro g
    rw [List.foldl_cons, List.foldl_cons, ih]
    rfl

theorem foldl_set_range_length (f : Nat → Nat) (b : Nat) (xs : List Nat) :
    ∀ l : List Nat,
      (xs.foldl (fun l x => l.set (b + x) (f x)) l).length = l.length := by
  induction xs with
  | nil => intro l; rfl
  | cons x xs ih =>
    intro l
    rw [List.foldl_cons, ih, List.length_set]

theorem foldl_set_range_getD (f : Nat → Nat) (b : Nat) (n : Nat) :
    ∀ (l : List Nat) (j : Nat),
      ((List.range n).foldl (fun l x => l.set (b + x) (f x)) l).getD j 0 =
        if b ≤ j ∧ j < b + n ∧ j < l.length then f (j - b) else l.getD j 0 := by
  induction n with
  | zero =>
    intro l j
    rw [List.range_zero, List.foldl_nil, if_neg (by omega)]
  | succ n ih =>
    intro l j
    rw [List.range_succ, List.foldl_append, List.foldl_cons, List.foldl_nil]
    have hlen : ((List.range n).foldl (fun l x => l.set (b + x) (f x)) l).length = l.length :=
      foldl_set_range_length f b (List.range n) l
    rw [List.getD_eq_getElem?_getD, List.getElem?_set, hlen]
    by_cases hbn : b + n = j
    · by_cases hjl : j < l.length
      · rw [if_pos hbn, if_pos (by omega : b + n < l.length)]
        rw [if_pos (by omega)]
        have : j - b = n := by omega
        rw [this]
        rfl
      · rw [if_pos hbn, if_neg (by omega : ¬ b + n < l.length), if_neg (by omega)]
        show (0 : Nat) = l.getD j 0
        rw [List.getD_eq_default _ _ (by omega)]
    · rw [if_neg hbn, ← List.getD_eq_getElem?_getD, ih l j]
      by_cases hc : b ≤ j ∧ j < b + n ∧ j < l.length
      · rw [if_pos hc, if_pos (by omega)]
      · rw [if_neg hc, if_neg (by omega)]

theorem foldl_rows_eq (W : Nat) (f2 : Nat → Nat → Nat) (ys : List Nat) :
    ∀ g : Grid, g.width = W →
      ys.foldl
        (fun next y =>
          (List.range W).foldl (fun next x => next.set x y (f2 x y)) next) g =
        ⟨g.width, g.height,
          ys.foldl
            (fun l y => (List.range W).foldl (fun l x => l.set (y * W + x) (f2 x y)) l)
            g.cells⟩ := by
  induction ys with
  | nil => intro g _; rfl
  | cons y ys ih =>
    intro g hw
    rw [List.foldl_cons, List.foldl_cons]
    rw [foldl_set_row (fun x => f2 x y) y (List.range W) g, hw]
    exact ih ⟨W, g.height, _⟩ rfl

theorem foldl_rows_length (W : Nat) (f2 : Nat → Nat → Nat) (hn : Nat) :
    ∀ l : List Nat,
      ((List.range hn).foldl
        (fun l y => (List.range W).foldl (fun l x => l.set (y * W + x) (f2 x y)) l) l).length
        = l.length := by
  induction hn with
  | zero => intro l; rfl
  | succ n ih =>
    intro l
    rw [List.range_succ, List.foldl_append, List.foldl_cons, List.foldl_nil]
    rw [foldl_set_range_length (fun x => f2 x n) (n * W) (List.range W), ih]

theorem foldl_rows_getD (W : Nat) (hW : 0 < W) (f2 : Nat → Nat → Nat) (hn : Nat) :
    ∀ (l : List Nat) (j : Nat),
      ((List.range hn).foldl
        (fun l y => (List.range W).foldl (fun l x => l.set (y * W + x) (f2 x y)) l) l).getD j 0
        = if j < hn * W ∧ j < l.length then f2 (j % W) (j / W) else l.getD j 0 := by
  induction hn with
  | zero =>
    intro l j
    rw [List.range_zero, List.foldl_nil, if_neg (by omega)]
  | succ n ih =>
    intro l j
    rw [List.range_succ, List.foldl_append, List.foldl_cons, List.foldl_nil]
    rw [foldl_set_range_getD (fun x => f2 x n) (n * W) W _ j]
    rw [foldl_rows_length W f2 n l, ih l j]
    by_cases hrow : n * W ≤ j ∧ j < n * W + W ∧ j < l.length
    · rw [if_pos hrow]
      obtain ⟨h1, h2, h3⟩ := hrow
      have hr : j = W * n + (j - n * W) := by
        have : n * W = W * n := Nat.mul_comm n W
        omega
      have hmod : j % W = j - n * W := by
        conv_lhs => rw [hr]
        rw [Nat.mul_add_mod]
        exact Nat.mod_eq_of_lt (by omega)
      have hdiv : j / W = n := by
        conv_lhs => rw [hr]
        rw [Nat.mul_add_div hW]
        have : (j - n * W) / W = 0 := Nat.div_eq_of_lt (by omega)
        omega
      rw [if_pos ⟨by rw [Nat.succ_mul]; omega, h3⟩, hmod, hdiv]
    · by_cases hc : j < n * W ∧ j < l.length
      · rw [if_neg hrow, if_pos hc, if_pos ⟨by rw [Nat.succ_mul]; omega, hc.2⟩]
      · rw [if_neg hrow, if_neg hc, if_neg (by rw [Nat.succ_mul]; omega)]

theorem tick_width (g : Grid) : (tick g).width = g.width := by
  unfold tick
  rw [foldl_rows_eq g.width _ (List.range g.height) (Grid.new g.width g.height) rfl]
  rfl

theorem tick_height (g : Grid) : (tick g).height = g.height := by
  unfold tick
  rw [foldl_rows_eq g.width _ (List.range g.height) (Grid.new g.width g.height) rfl]
  rfl

theorem tick_length (g : Grid) : (tick g).cells.length = g.width * g.height := by
  unfold tick
  rw [foldl_rows_eq g.width _ (List.range g.height) (Grid.new g.width g.height) rfl]
  dsimp only
  rw [foldl_rows_length]
  exact List.length_replicate _ _

theorem tick_getD (g : Grid) (hW : 0 < g.width) (j : Nat) (hj : j < g.width * g.height) :
    (tick g).cells.getD j 0 =
      ruleNext (g.get (((j % g.width : Nat)) : Int) (((j / g.width : Nat)) : Int))
        (count_neighbors g (((j % g.width : Nat)) : Int) (((j / g.width : Nat)) : Int)) := by
  unfold tick
  rw [foldl_rows_eq g.width _ (List.range g.height) (Grid.new g.width g.height) rfl]
  dsimp only
  rw [foldl_rows_getD g.width hW _ g.height (Grid.new g.width g.height).cells j]
  have hlen : (Grid.new g.width g.height).cells.length = g.width * g.height :=
    List.length_replicate _ _
  have hcm : g.height * g.width = g.width * g.height := Nat.mul_comm g.height g.width
  rw [if_pos ⟨by omega, by omega⟩]

theorem get_index_nat (g : Grid) (x y : Nat) (hx : x < g.width) (hy : y < g.height) :
    g.get_index (x : Int) (y : Int) = y * g.width + x := by
  unfold Grid.get_index
  have hxm : ((x : Int)) % (g.width : Int) = (x : Int) :=
    Int.emod_eq_of_lt (Int.natCast_nonneg x) (by exact_mod_cast hx)
  have hym : ((y : Int)) % (g.height : Int) = (y : Int) :=
    Int.emod_eq_of_lt (Int.natCast_nonneg y) (by exact_mod_cast hy)
  rw [hxm, hym, Int.toNat_natCast, Int.toNat_natCast]

theorem rowmajor_mod (W x y : Nat) (hx : x < W) : (y * W + x) % W = x := by
  rw [Nat.mul_comm y W, Nat.mul_add_mod, Nat.mod_eq_of_lt hx]

theorem rowmajor_div (W x y : Nat) (hW : 0 < W) (hx : x < W) : (y * W + x) / W = y := by
  rw [Nat.mul_comm y W, Nat.mul_add_div hW, Nat.div_eq_of_lt hx, Nat.add_zero]

theorem rowmajor_lt (W H x y : Nat) (hx : x < W) (hy : y < H) : y * W + x < W * H :=
  calc y * W + x < (y + 1) * W := by rw [Nat.succ_mul]; omega
    _ ≤ H * W := Nat.mul_le_mul_right _ (by omega)
    _ = W * H := Nat.mul_comm _ _

theorem ruleNext_eq (s n : Nat) :
    ruleNext s n = if (s = 1 ∧ (n = 2 ∨ n = 3)) ∨ (s = 0 ∧ n = 3) then 1 else 0 := by
  rcases s with _ | _ | s <;> rcases n with _ | _ | _ | _ | n <;> simp [ruleNext]

/-- C1: `tick` preserves the dimensions and is well-formed, and each in-range
cell of the result is 1 exactly when the prior value is 1 with a toroidal Moore
neighbor count of 2 or 3 (survival), or the prior value is 0 with a count of
exactly 3 (birth); in every other combination it is 0. -/
theorem C1_step_spec (g : Grid) (x y : Nat) (hx : x < g.width) (hy : y < g.height) :
    (tick g).width = g.width ∧ (tick g).height = g.height ∧ (tick g).WF ∧
    ((tick g).get (x : Int) (y : Int) = 1 ↔
      ((g.get (x : Int) (y : Int) = 1 ∧
          (count_neighbors g (x : Int) (y : Int) = 2 ∨
           count_neighbors g (x : Int) (y : Int) = 3)) ∨
       (g.get (x : Int) (y : Int) = 0 ∧ count_neighbors g (x : Int) (y : Int) = 3))) ∧
    ((tick g).get (x : Int) (y : Int) = 0 ∨ (tick g).get (x : Int) (y : Int) = 1) := by
  have hW : 0 < g.width := by omega
  have hxw : x < (tick g).width := by rw [tick_width]; exact hx
  have hyh : y < (tick g).height := by rw [tick_height]; exact hy
  have hidx : (tick g).get_index (x : Int) (y : Int) = y * g.width + x := by
    rw [get_index_nat (tick g) x y hxw hyh, tick_width]
  have hget : (tick g).get (x : Int) (y : Int) =
      ruleNext (g.get (x : Int) (y : Int)) (count_neighbors g (x : Int) (y : Int)) := by
    show (tick g).cells.getD ((tick g).get_index (x : Int) (y : Int)) 0 = _
    rw [hidx, tick_getD g hW (y * g.width + x) (rowmajor_lt g.width g.height x y hx hy),
      rowmajor_mod g.width x y hx, rowmajor_div g.width x y hW hx]
  refine ⟨tick_width g, tick_height g, ?_, ?_, ?_⟩
  · show (tick g).cells.length = (tick g).width * (tick g).height
    rw [tick_length, tick_width, tick_height]
  · rw [hget, ruleNext_eq]
    by_cases hc : (g.get (x : Int) (y : Int) = 1 ∧
        (count_neighbors g (x : Int) (y : Int) = 2 ∨
         count_neighbors g (x : Int) (y : Int) = 3)) ∨
       (g.get (x : Int) (y : Int) = 0 ∧ count_neighbors g (x : Int) (y : Int) = 3)
    · rw [if_pos hc]
      exact iff_of_true rfl hc
    · rw [if_neg hc]
      exact iff_of_false (by omega) hc
  · rw [hget, ruleNext_eq]
    split_ifs
    · exact Or.inr rfl
    · exact Or.inl rfl

/-- Witness for C1 at a concrete 3-by-3 grid holding a vertical line, at cell (1,1). -/
theorem C1_witness :
    (tick ⟨3, 3, [0, 1, 0, 0, 1, 0, 0, 1, 0]⟩).width = 3 ∧
    (tick ⟨3, 3, [0, 1, 0, 0, 1, 0, 0, 1, 0]⟩).height = 3 ∧
    (tick ⟨3, 3, [0, 1, 0, 0, 1, 0, 0, 1, 0]⟩).WF ∧
    ((tick ⟨3, 3, [0, 1, 0, 0, 1, 0, 0, 1, 0]⟩).get ((1 : Nat) : Int) ((1 : Nat) : Int) = 1 ↔
      ((Grid.get ⟨3, 3, [0, 1, 0, 0, 1, 0, 0, 1, 0]⟩ ((1 : Nat) : Int) ((1 : Nat) : Int) = 1 ∧
          (count_neighbors ⟨3, 3, [0, 1, 0, 0, 1, 0, 0, 1, 0]⟩ ((1 : Nat) : Int)
              ((1 : Nat) : Int) = 2 ∨
           count_neighbors ⟨3, 3, [0, 1, 0, 0, 1, 0, 0, 1, 0]⟩ ((1 : Nat) : Int)
              ((1 : Nat) : Int) = 3)) ∨
       (Grid.get ⟨3, 3, [0, 1, 0, 0, 1, 0, 0, 1, 0]⟩ ((1 : Nat) : Int) ((1 : Nat) : Int) = 0 ∧
          count_neighbors ⟨3, 3, [0, 1, 0, 0, 1, 0, 0, 1, 0]⟩ ((1 : Nat) : Int)
            ((1 : Nat) : Int) = 3))) ∧
    ((tick ⟨3, 3, [0, 1, 0, 0, 1, 0, 0, 1, 0]⟩).get ((1 : Nat) : Int) ((1 : Nat) : Int) = 0 ∨
     (tick ⟨3, 3, [0, 1, 0, 0, 1, 0, 0, 1, 0]⟩).get ((1 : Nat) : Int) ((1 : Nat) : Int) = 1) :=
  C1_step_spec ⟨3, 3, [0, 1, 0, 0, 1, 0, 0, 1, 0]⟩ 1 1 (by decide) (by decide)

/-! ## C2: seed derivation and the row-major pseudo-random fill -/

theorem fillCells_succ (s n : Nat) :
    fillCells s (n + 1) =
      (Xorshift32.next_bool s).2 :: fillCells (Xorshift32.next_bool s).1 n := rfl

theorem fillCells_length (n : Nat) : ∀ s : Nat, (fillCells s n).length = n := by
  induction n with
  | zero => intro s; rfl
  | succ n ih =>
    intro s
    rw [fillCells_succ, List.length_cons, ih]

theorem fillCells_getD (n : Nat) :
    ∀ (s k : Nat), k < n →
      (fillCells s n).getD k 0 =
        if Xorshift32.nextState^[k + 1] s % 256 > 128 then 1 else 0 := by
  induction n with
  | zero => intro s k hk; omega
  | succ n ih =>
    intro s k hk
    rw [fillCells_succ]
    cases k with
    | zero =>
      rw [List.getD_cons_zero, Function.iterate_one]
      show (if Xorshift32.nextState s &&& 255 > 128 then 1 else 0) = _
      rw [land_255_eq_mod]
    | succ k =>
      rw [List.getD_cons_succ, ih _ k (by omega)]
      have hst : (Xorshift32.next_bool s).1 = Xorshift32.nextState s := rfl
      rw [hst, ← Function.iterate_succ_apply]

theorem generate_cells_get (seed : Nat) (width height x y : Nat)
    (hx : x < width) (hy : y < height) :
    Grid.get ⟨width, height, fillCells (Xorshift32.new seed) (width * height)⟩
      (x : Int) (y : Int) = streamNth seed (y * width + x + 1) := by
  unfold Grid.get
  rw [get_index_nat ⟨width, height, fillCells (Xorshift32.new seed) (width * height)⟩
    x y hx hy]
  show (fillCells (Xorshift32.new seed) (width * height)).getD (y * width + x) 0 = _
  rw [fillCells_getD (width * height) _ (y * width + x)
    (rowmajor_lt width height x y hx hy)]
  rfl

/-- C2: grid generation derives the seed as the first 4 bytes of SHA-256 over
the username bytes followed immediately by the password bytes, read big-endian,
and fills a `width * height` grid in row-major order with one generator value
per cell, so that cell (x, y) is the `(y * width + x + 1)`-th value of the
cell-value stream from that seed. -/
theorem C2_initial_grid_spec (username password : List Nat) (width height : Nat)
    (hW : 0 < width) (hH : 0 < height) :
    ∃ g : Grid,
      generate_grid_from_seed username password width height = some g ∧
      g.width = width ∧ g.height = height ∧ g.WF ∧
      ∀ x y : Nat, x < width → y < height →
        g.get (x : Int) (y : Int) =
          streamNth (u32_from_be ((sha256 (username ++ password)).take 4))
            (y * width + x + 1) := by
  refine ⟨⟨width, height,
    fillCells (Xorshift32.new (u32_from_be ((sha256 (username ++ password)).take 4)))
      (width * height)⟩, ?_, rfl, rfl, ?_, ?_⟩
  · show Grid.from_raw width height _ = _
    unfold Grid.from_raw
    rw [if_pos (fillCells_length (width * height) _)]
  · show (fillCells _ (width * height)).length = width * height
    exact fillCells_length _ _
  · intro x y hx hy
    exact generate_cells_get (u32_from_be ((sha256 (username ++ password)).take 4))
      width height x y hx hy

/-- Witness for C2 on empty username and password and a 2-by-2 grid. -/
theorem C2_witness :
    ∃ g : Grid,
      generate_grid_from_seed [] [] 2 2 = some g ∧
      g.width = 2 ∧ g.height = 2 ∧ g.WF ∧
      ∀ x y : Nat, x < 2 → y < 2 →
        g.get (x : Int) (y : Int) =
          streamNth (u32_from_be ((sha256 ([] ++ [])).take 4)) (y * 2 + x + 1) :=
  C2_initial_grid_spec [] [] 2 2 (by decide) (by decide)

/-! ## C9: out-of-range `set` can silently corrupt a different cell (corrected) -/

/-- Counterexample to C9 as stated: on a 2-by-2 all-zero grid, the out-of-range
write `set(2, 0, 1)` (x = 2 >= width = 2) does not panic — the flat index
`0 * 2 + 2 = 2` is still inside the cell vector — and it completes normally
having changed cell (0, 1), a cell other than the one addressed. -/
theorem C9_counterexample :
    Grid.setChecked ⟨2, 2, [0, 0, 0, 0]⟩ 2 0 1 = some ⟨2, 2, [0, 0, 1, 0]⟩ ∧
    Grid.get ⟨2, 2, [0, 0, 1, 0]⟩ (0 : Int) (1 : Int) = 1 ∧
    Grid.get ⟨2, 2, [0, 0, 0, 0]⟩ (0 : Int) (1 : Int) = 0 := by
  refine ⟨?_, ?_, ?_⟩ <;> decide

/-- C9 amended: `set(x, y, value)` writes the single flat position
`y * width + x`: it panics exactly when that index reaches past the cell
vector (for a well-formed grid, when `y * width + x >= width * height`), and
otherwise completes having written only that flat position and left every other
position unchanged — which for in-range coordinates is exactly cell (x, y), but
for `x >= width` with `y * width + x < width * height` is a different cell,
which is silently corrupted. -/
theorem C9_set_amended (g : Grid) (hwf : g.WF) (x y v : Nat) :
    (g.setChecked x y v = none ↔ g.width * g.height ≤ y * g.width + x) ∧
    (∀ g', g.setChecked x y v = some g' →
        g'.width = g.width ∧ g'.height = g.height ∧
        g'.cells.length = g.cells.length ∧
        (y * g.width + x < g.cells.length → g'.cells.getD (y * g.width + x) 0 = v) ∧
        ∀ j, j ≠ y * g.width + x → g'.cells.getD j 0 = g.cells.getD j 0) ∧
    (x < g.width → y < g.height →
        g.setChecked x y v = some (g.set x y v) ∧
        (g.set x y v).get (x : Int) (y : Int) = v) := by
  have hwf' : g.cells.length = g.width * g.height := hwf
  refine ⟨?_, ?_, ?_⟩
  · unfold Grid.setChecked
    split_ifs with h
    · constructor
      · intro hc
        exact hc.elim
      · intro hc
        omega
    · exact iff_of_true rfl (by omega)
  · intro g' hg'
    unfold Grid.setChecked at hg'
    split_ifs at hg' with h
    · obtain rfl : g.set x y v = g' := Option.some.inj hg'
      refine ⟨rfl, rfl, ?_, ?_, ?_⟩
      · exact List.length_set g.cells _ _
      · intro hlt
        show (g.cells.set (y * g.width + x) v).getD (y * g.width + x) 0 = v
        rw [List.getD_eq_getElem?_getD, List.getElem?_set, if_pos rfl, if_pos hlt]
        rfl
      · intro j hj
        show (g.cells.set (y * g.width + x) v).getD j 0 = g.cells.getD j 0
        rw [List.getD_eq_getElem?_getD, List.getElem?_set,
          if_neg (fun hc => hj hc.symm), ← List.getD_eq_getElem?_getD]
  · intro hx hy
    have hlt : y * g.width + x < g.cells.length := by
      rw [hwf']
      exact rowmajor_lt g.width g.height x y hx hy
    refine ⟨?_, ?_⟩
    · unfold Grid.setChecked
      rw [if_pos hlt]
    · have hidx : (g.set x y v).get_index (x : Int) (y : Int) = y * g.width + x :=
        get_index_nat (g.set x y v) x y hx hy
      show (g.cells.set (y * g.width + x) v).getD ((g.set x y v).get_index _ _) 0 = v
      rw [hidx, List.getD_eq_getElem?_getD, List.getElem?_set, if_pos rfl, if_pos hlt]
      rfl

/-- Witness for the amended C9 at a concrete grid and in-range coordinates. -/
theorem C9_witness :
    (Grid.setChecked ⟨2, 2, [0, 0, 0, 0]⟩ 0 1 5 = none ↔
      (2 : Nat) * 2 ≤ 1 * 2 + 0) ∧
    (Grid.setChecked ⟨2, 2, [0, 0, 0, 0]⟩ 0 1 5 =
        some (Grid.set ⟨2, 2, [0, 0, 0, 0]⟩ 0 1 5) ∧
      (Grid.set ⟨2, 2, [0, 0, 0, 0]⟩ 0 1 5).get ((0 : Nat) : Int) ((1 : Nat) : Int) = 5) := by
  have h := C9_set_amended ⟨2, 2, [0, 0, 0, 0]⟩ (by decide) 0 1 5
  exact ⟨h.1, h.2.2 (by decide) (by decide)⟩

/-! ## C10: every 1-by-1 grid dies after one step -/

theorem tick_fix_zero11 : tick ⟨1, 1, [0]⟩ = ⟨1, 1, [0]⟩ := by decide

theorem iterate_tick_zero11 (m : Nat) : tick^[m] ⟨1, 1, [0]⟩ = ⟨1, 1, [0]⟩ := by
  induction m with
  | zero => rfl
  | succ m ih => rw [Function.iterate_succ_apply', ih, tick_fix_zero11]

/-- C10: on a 1-by-1 torus all 8 Moore offsets wrap back to the single cell, so
a live cell counts 8 neighbors and dies of overcrowding while a dead cell counts
0 and has no birth; one `step` yields the all-zero grid and so does every
simulation of at least one step. -/
theorem C10_one_by_one (g : Grid) (hw : g.width = 1) (hh : g.height = 1) (hwf : g.WF)
    (n : Nat) (hn : 1 ≤ n) :
    count_neighbors g 0 0 = (if g.get 0 0 = 1 then 8 else 0) ∧
    tick g = ⟨1, 1, [0]⟩ ∧
    run_simulation g n = ⟨1, 1, [0]⟩ := by
  obtain ⟨w, ht, cells⟩ := g
  simp only at hw hh
  subst hw hh
  have hwf' : cells.length = 1 := hwf
  obtain ⟨c, rfl⟩ := List.length_eq_one.mp hwf'
  have hget : ∀ a b : Int, Grid.get ⟨1, 1, [c]⟩ a b = c := by
    intro a b
    unfold Grid.get Grid.get_index
    norm_num [Int.emod_one]
  have hcount : ∀ a b : Int, count_neighbors ⟨1, 1, [c]⟩ a b = (if c = 1 then 8 else 0) := by
    intro a b
    simp only [count_neighbors, List.foldl_cons, List.foldl_nil, hget]
    by_cases hc : c = 1 <;> simp [hc]
  have hrule : ruleNext c (if c = 1 then 8 else 0) = 0 := by
    by_cases hc : c = 1
    · rw [if_pos hc, hc]
      rfl
    · rw [if_neg hc, ruleNext_eq, if_neg (by omega)]
  have htick : tick ⟨1, 1, [c]⟩ = ⟨1, 1, [0]⟩ := by
    have hl : (tick ⟨1, 1, [c]⟩).cells.length = 1 := tick_length ⟨1, 1, [c]⟩
    obtain ⟨a, ha⟩ := List.length_eq_one.mp hl
    have hd : (tick ⟨1, 1, [c]⟩).cells.getD 0 0 = a := by rw [ha]; rfl
    have hd' := tick_getD ⟨1, 1, [c]⟩ (by exact Nat.one_pos) 0 (by exact Nat.one_pos)
    rw [hd] at hd'
    have ha0 : a = 0 := by
      rw [hd', hget, hcount]
      exact hrule
    have heta : tick ⟨1, 1, [c]⟩ =
        ⟨(tick ⟨1, 1, [c]⟩).width, (tick ⟨1, 1, [c]⟩).height, (tick ⟨1, 1, [c]⟩).cells⟩ := rfl
    rw [heta, tick_width, tick_height, ha, ha0]
  refine ⟨by rw [hcount, hget], htick, ?_⟩

  rw [run_simulation_eq_iterate]
  obtain ⟨m, rfl⟩ : ∃ m, n = m + 1 := ⟨n - 1, by omega⟩
  rw [Function.iterate_succ_apply, htick, iterate_tick_zero11]

/-- Witness for C10 at the live 1-by-1 grid and 2 steps. -/
theorem C10_witness :
    count_neighbors ⟨1, 1, [1]⟩ 0 0 = (if Grid.get ⟨1, 1, [1]⟩ 0 0 = 1 then 8 else 0) ∧
    tick ⟨1, 1, [1]⟩ = ⟨1, 1, [0]⟩ ∧
    run_simulation ⟨1, 1, [1]⟩ 2 = ⟨1, 1, [0]⟩ :=
  C10_one_by_one ⟨1, 1, [1]⟩ rfl rfl (by decide) 2 (by decide)
